import Mathlib

/-!
# Verification of the Bangla PDF question-answering pipeline

A shallow embedding of the document-to-answer pipeline of `app.py` and
`app_deploy.py`: OCR text extraction, recursive chunking, embedding,
flat squared-L2 vector indexing, an on-disk pickle cache keyed by the
PDF's base name, and the OpenAI chat-completion call.

Text is modelled as `List Char`; embedding vectors as `List Int`;
the external OCR engine, embedding model and completion service are
parameters (pure functions / `Except`-valued inputs).
-/

/-! ## Chunker -/

/-- The configured maximum chunk length (`chunk_size=500` in `process_pdf`). -/
def chunk_size : Nat := 500

/-- The configured chunk overlap (`chunk_overlap=100` in `process_pdf`). -/
def chunk_overlap : Nat := 100

/-- Split a text on every occurrence of a (non-empty) separator pattern,
returning the pieces between occurrences, in order. -/
def splitOnSep (sep : List Char) : List Char → List (List Char)
  | [] => [[]]
  | c :: cs =>
    if h : sep ≠ [] ∧ List.take sep.length (c :: cs) = sep then
      [] :: splitOnSep sep (List.drop sep.length (c :: cs))
    else
      match splitOnSep sep cs with
      | [] => [[c]]
      | p :: ps => (c :: p) :: ps
termination_by l => l.length
decreasing_by
  · have hmin : sep.length ⊓ (c :: cs).length = sep.length := by
      have := congrArg List.length h.2
      simpa [List.length_take] using this
    have hlen : sep.length ≤ (c :: cs).length := inf_eq_left.mp hmin
    have hpos : 0 < sep.length := by
      cases sep with
      | nil => exact absurd rfl h.1
      | cons a l => simp
    simp only [List.length_drop, List.length_cons]
    omega
  · simp

/-- Character-level fallback: chop a segment that no separator can break
into fixed windows of `chunk_size` characters advancing by
`chunk_size - chunk_overlap`, so consecutive windows share
`chunk_overlap` characters. -/
def windowChunks (text : List Char) : List (List Char) :=
  if text.length ≤ chunk_size then [text]
  else
    List.take chunk_size text ::
      windowChunks (List.drop (chunk_size - chunk_overlap) text)
termination_by text.length
decreasing_by
  simp only [List.length_drop]
  simp only [chunk_size, chunk_overlap] at *
  omega

/-- The prioritized separator list handed to the splitter in `process_pdf`:
paragraph break, Bangla danda (sentence end), newline, space; the empty
string (character-level) separator is the `windowChunks` base case. -/
def separators : List (List Char) :=
  [['\n', '\n'], ['।'], ['\n'], [' ']]

/-- Modelled from the spec: the recursive character splitter invoked by
`process_pdf` (the `RecursiveCharacterTextSplitter` library code is not part
of this repository).  A text within the maximum length is one chunk;
otherwise the text is split on the coarsest separator and each piece that
still exceeds the maximum is recursively split with the finer separators,
down to the character-level windowing. -/
def chunkText : List (List Char) → List Char → List (List Char)
  | [], text =>
    if text.length ≤ chunk_size then [text] else windowChunks text
  | sep :: rest, text =>
    if text.length ≤ chunk_size then [text]
    else ((splitOnSep sep text).map (fun p => chunkText rest p)).flatten

/-- The `split_text` call of the configured splitter: chunk with the prioritized
separators and drop empty pieces (empty text yields an empty sequence). -/
def split_text (text : List Char) : List (List Char) :=
  (chunkText separators text).filter (fun c => ¬ c.isEmpty)

/-! ## Vector index (faiss `IndexFlatL2`) -/

/-- Squared Euclidean distance between two vectors. -/
def sqdist (v w : List Int) : Int :=
  ((v.zip w).map (fun p => (p.1 - p.2) ^ 2)).sum

/-- The flat L2 index: the stored dimension and the vectors in insertion
order (`faiss.IndexFlatL2(dimension)` followed by `index.add(embeddings)`). -/
structure IndexFlatL2 where
  dim : Nat
  vectors : List (List Int)
deriving Repr, DecidableEq

/-- Number of stored vectors (`index.ntotal`). -/
def IndexFlatL2.size (idx : IndexFlatL2) : Nat :=
  idx.vectors.length

/-- Squared distance from the query to stored vector `i`. -/
def IndexFlatL2.distTo (idx : IndexFlatL2) (q : List Int) (i : Nat) : Int :=
  sqdist (idx.vectors.getD i []) q

/-- All stored positions ordered by increasing squared distance to the
query (stable, so ties keep insertion order). -/
def IndexFlatL2.searchOrder (idx : IndexFlatL2) (q : List Int) : List Nat :=
  (List.range idx.vectors.length).mergeSort
    (fun i j => decide (idx.distTo q i ≤ idx.distTo q j))

/-- Modelled from the spec and the faiss library's exact-search semantics
(the library code is not part of this repository): `search` returns the `k`
nearest stored positions, nearest first; when fewer than `k` vectors are
stored the remaining result slots are filled with `-1`, as the callers in
`app.py` / `app_deploy.py` observe. -/
def IndexFlatL2.search (idx : IndexFlatL2) (q : List Int) (k : Nat) : List Int :=
  ((idx.searchOrder q).take k).map Int.ofNat ++
    List.replicate (k - idx.vectors.length) (-1)

/-! ## OCR extraction (`extract_text_from_pdf`) -/

/-- Outcome of OCR on one page image: recognized text, or a
`TesseractError` carrying its message. -/
inductive PageOcr where
  | ok (text : List Char)
  | err (msg : List Char)
deriving Repr, DecidableEq

/-- The errors that abort the pipeline (`st.error` + `st.stop`, or the
uncaught `IndexError` on an empty embedding batch). -/
inductive PipelineError where
  | langDataMissing
  | tesseractError (msg : List Char)
  | pdfError (msg : List Char)
  | emptyEmbeddings
deriving Repr, DecidableEq

/-- Does `needle` occur as a contiguous substring of the text?
(Python's `'ben' in str(e)`.) -/
def hasSub (needle : List Char) : List Char → Bool
  | [] => decide (needle = [])
  | c :: cs =>
    decide (List.take needle.length (c :: cs) = needle) || hasSub needle cs

/-- The message fragment `extract_text_from_pdf` looks for to recognize a
missing Bengali language pack. -/
def benMarker : List Char := ['b', 'e', 'n']

/-- The per-page OCR loop of `app.py`'s `extract_text_from_pdf`: page texts
are accumulated with a blank-line separator; a `TesseractError` whose
message mentions `ben` stops the app with the dedicated
language-data-missing report, any other `TesseractError` stops it with the
generic report.  No partial text survives an error. -/
def ocrPages : List PageOcr → Except PipelineError (List Char)
  | [] => Except.ok []
  | PageOcr.ok t :: rest =>
    (ocrPages rest).map (fun r => t ++ ['\n', '\n'] ++ r)
  | PageOcr.err m :: _ =>
    if hasSub benMarker m then Except.error PipelineError.langDataMissing
    else Except.error (PipelineError.tesseractError m)

/-- The per-page OCR loop of `app_deploy.py`'s `extract_text_from_pdf`:
every `TesseractError` stops the app with the generic report — there is no
separate language-data-missing branch in the deploy variant. -/
def ocrPagesDeploy : List PageOcr → Except PipelineError (List Char)
  | [] => Except.ok []
  | PageOcr.ok t :: rest =>
    (ocrPagesDeploy rest).map (fun r => t ++ ['\n', '\n'] ++ r)
  | PageOcr.err m :: _ =>
    Except.error (PipelineError.tesseractError m)

/-- The app.py `extract_text_from_pdf`: rasterize the PDF (which may fail on
a corrupt/unreadable file) and run the per-page OCR loop. -/
def extract_text_from_pdf
    (pdf : Except (List Char) (List PageOcr)) :
    Except PipelineError (List Char) :=
  match pdf with
  | Except.error m => Except.error (PipelineError.pdfError m)
  | Except.ok pages => ocrPages pages

/-- The app_deploy.py `extract_text_from_pdf`: same shape, generic Tesseract
error handling. -/
def extract_text_from_pdf_deploy
    (pdf : Except (List Char) (List PageOcr)) :
    Except PipelineError (List Char) :=
  match pdf with
  | Except.error m => Except.error (PipelineError.pdfError m)
  | Except.ok pages => ocrPagesDeploy pages

/-! ## Document cache and `process_pdf` -/

/-- The pickle cache directory as a map from file name to the persisted
`(chunks, index)` pair, modelled as an association list. -/
abbrev Cache : Type :=
  List (List Char × (List (List Char) × IndexFlatL2))

/-- Look a key up in the cache (`os.path.exists` + `pickle.load`). -/
def cacheLookup : Cache → List Char → Option (List (List Char) × IndexFlatL2)
  | [], _ => none
  | (k, v) :: rest, key => if k = key then some v else cacheLookup rest key

/-- Python `os.path.basename`: the part of the path after the last separator. -/
def basename (p : List Char) : List Char :=
  ((p.reverse.takeWhile (fun c => c ≠ '/')).reverse)

/-- The suffix appended to the base name to form the cache file name. -/
def pklSuffix : List Char := ['.', 'p', 'k', 'l']

/-- The cache key `process_pdf` derives from the PDF path:
`f"{os.path.basename(pdf_path)}.pkl"`. -/
def cacheKey (pdf_path : List Char) : List Char :=
  basename pdf_path ++ pklSuffix

/-- The Extractor → Chunker → Embedder → Vector-Index pipeline `process_pdf`
runs on a cache miss: extract the text, split it, embed every chunk, read
the dimension off the first embedding (`embeddings.shape[1]`, an
`IndexError` when the batch is empty) and build the flat L2 index. -/
def computePipeline
    (convert : List Char → Except (List Char) (List PageOcr))
    (embed : List Char → List Int)
    (pdf_path : List Char) :
    Except PipelineError (List (List Char) × IndexFlatL2) :=
  match extract_text_from_pdf (convert pdf_path) with
  | Except.error e => Except.error e
  | Except.ok text =>
    let chunks := split_text text
    let embeddings := chunks.map embed
    if embeddings.isEmpty then Except.error PipelineError.emptyEmbeddings
    else Except.ok (chunks, ⟨(embeddings.headD []).length, embeddings⟩)

/-- The `process_pdf` function: return the cached `(chunks, index)` pair when the cache
file exists; otherwise run the pipeline and, on success, persist the pair
under the derived key.  The third component records whether extraction was
invoked (the call-count on the Extractor). -/
def process_pdf
    (convert : List Char → Except (List Char) (List PageOcr))
    (embed : List Char → List Int)
    (cache : Cache)
    (pdf_path : List Char) :
    Except PipelineError (List (List Char) × IndexFlatL2) × Cache × Bool :=
  match cacheLookup cache (cacheKey pdf_path) with
  | some entry => (Except.ok entry, cache, false)
  | none =>
    match computePipeline convert embed pdf_path with
    | Except.error e => (Except.error e, cache, true)
    | Except.ok pair =>
      (Except.ok pair, (cacheKey pdf_path, pair) :: cache, true)

/-! ## Answer generation (`query_openai` and the question path of `main`) -/

/-- Python's `str.strip()`: drop whitespace from both ends. -/
def pyStrip (s : List Char) : List Char :=
  ((s.dropWhile Char.isWhitespace).reverse.dropWhile Char.isWhitespace).reverse

/-- The fixed model selection of `query_openai`. -/
def openaiModel : List Char := "gpt-4o".toList

/-- The fixed system instruction of `query_openai`, naming the document's
source language. -/
def systemInstruction : List Char :=
  "You are a helpful assistant that answers questions in Bangla.".toList

/-- The sampling temperature of `query_openai`. -/
def openaiTemperature : ℚ := 0.2

/-- The maximum output length of `query_openai`. -/
def openaiMaxTokens : Nat := 500

/-- One chat-completion request as `query_openai` assembles it. -/
structure ChatRequest where
  model : List Char
  systemContent : List Char
  userContent : List Char
  temperature : ℚ
  maxTokens : Nat
deriving Repr, DecidableEq

/-- The request `query_openai` submits for a given user prompt. -/
def openaiRequest (prompt : List Char) : ChatRequest :=
  { model := openaiModel
  , systemContent := systemInstruction
  , userContent := prompt
  , temperature := openaiTemperature
  , maxTokens := openaiMaxTokens }

/-- The `query_openai` function: on a successful service response return the trimmed
response text; any exception (service error, missing/invalid credential,
timeout) is caught, reported with `st.error`, and turns into `None`. -/
def query_openai (response : Except (List Char) (List Char)) :
    Option (List Char) :=
  match response with
  | Except.ok r => some (pyStrip r)
  | Except.error _ => none

/-- The pieces of the f-string prompt `main` builds around the retrieved
context and the question. -/
def promptPre : List Char :=
  "\n        নিচের প্রসঙ্গ ব্যবহার করে প্রশ্নের উত্তর দাও:\n        \n        প্রসঙ্গ:\n        ".toList

/-- Prompt text between the context and the question. -/
def promptMid : List Char :=
  "\n        \n        প্রশ্ন: ".toList

/-- Prompt text after the question. -/
def promptPost : List Char :=
  "\n        উত্তর:\n        ".toList

/-- The single prompt of `main`, embedding the retrieved context and the
question. -/
def buildPrompt (context question : List Char) : List Char :=
  promptPre ++ context ++ promptMid ++ question ++ promptPost

/-- Python list indexing `chunks[i]` with an `int`-valued index: a negative
index counts from the end; an out-of-range index raises (`none`). -/
def pyIndex (l : List (List Char)) (i : Int) : Option (List Char) :=
  let j : Int := if i < 0 then (l.length : Int) + i else i
  if h : 0 ≤ j ∧ j.toNat < l.length then some (l.get ⟨j.toNat, h.2⟩)
  else none

/-- The list comprehension `[chunks[i] for i in I[0]]`: every lookup must
be in range, else the comprehension raises. -/
def lookupAll (chunks : List (List Char)) : List Int → Option (List (List Char))
  | [] => some []
  | i :: is =>
    match pyIndex chunks i, lookupAll chunks is with
    | some t, some ts => some (t :: ts)
    | _, _ => none

/-- The blank-line separator joining the retrieved chunks into the context. -/
def contextSep : List Char := "\n\n".toList

/-- Python `"\n\n".join(...)` over the retrieved chunks. -/
def joinContext : List (List Char) → List Char
  | [] => []
  | [t] => t
  | t :: ts => t ++ contextSep ++ joinContext ts

/-- The context `main` assembles from the search result:
`"\n\n".join([chunks[i] for i in I[0]])`. -/
def contextOf (chunks : List (List Char)) (ids : List Int) :
    Option (List Char) :=
  (lookupAll chunks ids).map joinContext

/-- One question against a READY document, as `main` runs it: embed the
question, search the index with `k = 3`, assemble the context and the
prompt, call `query_openai`, and leave the document's chunks and index
untouched.  `Except.error` is an uncaught `IndexError` from the context
comprehension; `Except.ok none` is the graceful no-answer outcome. -/
def askQuestion
    (chunks : List (List Char)) (index : IndexFlatL2)
    (embedQ : List Char → List Int)
    (service : List Char → Except (List Char) (List Char))
    (question : List Char) :
    Except Unit (Option (List Char)) × (List (List Char) × IndexFlatL2) :=
  let qvec := embedQ question
  let ids := index.search qvec 3
  match contextOf chunks ids with
  | none => (Except.error (), (chunks, index))
  | some context =>
    let answer := query_openai (service (buildPrompt context question))
    (Except.ok answer, (chunks, index))

/-! ## Chunker lemmas -/

theorem windowChunks_short (t : List Char) (h : t.length ≤ chunk_size) :
    windowChunks t = [t] := by
  rw [windowChunks]
  simp [h]

theorem windowChunks_long (t : List Char) (h : ¬ t.length ≤ chunk_size) :
    windowChunks t =
      List.take chunk_size t ::
        windowChunks (List.drop (chunk_size - chunk_overlap) t) := by
  rw [windowChunks]
  simp [h]

theorem windowChunks_length_le (t : List Char) :
    ∀ c ∈ windowChunks t, c.length ≤ chunk_size := by
  induction t using windowChunks.induct with
  | case1 t h =>
    rw [windowChunks_short t h]
    intro c hc
    simp at hc
    exact hc ▸ h
  | case2 t h ih =>
    rw [windowChunks_long t h]
    intro c hc
    rcases List.mem_cons.mp hc with hc | hc
    · subst hc
      simp [List.length_take]
    · exact ih c hc

theorem chunkText_short (seps : List (List Char)) (t : List Char)
    (h : t.length ≤ chunk_size) : chunkText seps t = [t] := by
  cases seps with
  | nil => simp [chunkText, h]
  | cons s rest => simp [chunkText, h]

theorem chunkText_length_le (seps : List (List Char)) (t : List Char) :
    ∀ c ∈ chunkText seps t, c.length ≤ chunk_size := by
  induction seps generalizing t with
  | nil =>
    intro c hc
    by_cases h : t.length ≤ chunk_size
    · rw [chunkText_short [] t h] at hc
      simp at hc
      exact hc ▸ h
    · simp only [chunkText, if_neg h] at hc
      exact windowChunks_length_le t c hc
  | cons s rest ih =>
    intro c hc
    by_cases h : t.length ≤ chunk_size
    · rw [chunkText_short (s :: rest) t h] at hc
      simp at hc
      exact hc ▸ h
    · simp only [chunkText, if_neg h] at hc
      rcases List.mem_flatten.mp hc with ⟨l, hl, hcl⟩
      rcases List.mem_map.mp hl with ⟨p, _, hpl⟩
      exact ih p c (hpl ▸ hcl)

theorem split_text_length_le (text : List Char) :
    ∀ c ∈ split_text text, c.length ≤ chunk_size := by
  intro c hc
  exact chunkText_length_le separators text c (List.mem_filter.mp hc).1

/-- Consecutive chunks share the configured overlap: the tail of chunk `i`
past the stride is the head of chunk `i + 1`. -/
def OverlapAt (cs : List (List Char)) : Prop :=
  ∀ i, i + 1 < cs.length →
    (cs.getD i []).drop (chunk_size - chunk_overlap) =
      (cs.getD (i + 1) []).take chunk_overlap

theorem windowChunks_head_take (t : List Char) :
    ((windowChunks t).getD 0 []).take chunk_overlap =
      t.take chunk_overlap := by
  by_cases h : t.length ≤ chunk_size
  · rw [windowChunks_short t h]
    simp
  · rw [windowChunks_long t h]
    simp only [List.getD_cons_zero, List.take_take]
    norm_num [chunk_size, chunk_overlap]

theorem windowChunks_overlap (t : List Char) : OverlapAt (windowChunks t) := by
  induction t using windowChunks.induct with
  | case1 t h =>
    rw [windowChunks_short t h]
    intro i hi
    simp at hi
  | case2 t h ih =>
    rw [windowChunks_long t h]
    intro i hi
    cases i with
    | zero =>
      simp only [List.getD_cons_zero, List.getD_cons_succ]
      rw [List.drop_take, windowChunks_head_take]
      norm_num [chunk_size, chunk_overlap]
    | succ j =>
      simp only [List.getD_cons_succ]
      exact ih j (by simpa using Nat.lt_of_succ_lt_succ hi)

/-! ## Vector index lemmas -/

theorem searchOrder_perm (idx : IndexFlatL2) (q : List Int) :
    (idx.searchOrder q).Perm (List.range idx.size) :=
  List.mergeSort_perm _ _

theorem searchOrder_length (idx : IndexFlatL2) (q : List Int) :
    (idx.searchOrder q).length = idx.size := by
  rw [(searchOrder_perm idx q).length_eq, List.length_range]

theorem searchOrder_mem (idx : IndexFlatL2) (q : List Int) (i : Nat) :
    i ∈ idx.searchOrder q ↔ i < idx.size := by
  rw [(searchOrder_perm idx q).mem_iff, List.mem_range]

theorem searchOrder_nodup (idx : IndexFlatL2) (q : List Int) :
    (idx.searchOrder q).Nodup :=
  (searchOrder_perm idx q).nodup_iff.mpr (List.nodup_range _)

theorem searchOrder_sorted (idx : IndexFlatL2) (q : List Int) :
    (idx.searchOrder q).Pairwise
      (fun i j => idx.distTo q i ≤ idx.distTo q j) := by
  have htrans : ∀ a b c : Nat,
      decide (idx.distTo q a ≤ idx.distTo q b) = true →
      decide (idx.distTo q b ≤ idx.distTo q c) = true →
      decide (idx.distTo q a ≤ idx.distTo q c) = true := by
    intro a b c hab hbc
    simp only [decide_eq_true_eq] at *
    exact le_trans hab hbc
  have htotal : ∀ a b : Nat,
      (decide (idx.distTo q a ≤ idx.distTo q b) ||
        decide (idx.distTo q b ≤ idx.distTo q a)) = true := by
    intro a b
    simp only [Bool.or_eq_true, decide_eq_true_eq]
    exact le_total _ _
  have h := @List.sorted_mergeSort Nat
    (fun i j => decide (idx.distTo q i ≤ idx.distTo q j))
    htrans htotal (List.range idx.vectors.length)
  exact h.imp (fun hab => by simpa using hab)

theorem searchOrder_take_min (idx : IndexFlatL2) (q : List Int) (k : Nat) :
    ∀ i ∈ (idx.searchOrder q).take k, ∀ j, j < idx.size →
      j ∉ (idx.searchOrder q).take k →
      idx.distTo q i ≤ idx.distTo q j := by
  intro i hi j hj hnj
  have hmem : j ∈ idx.searchOrder q := (searchOrder_mem idx q j).mpr hj
  have hsplit := List.take_append_drop k (idx.searchOrder q)
  have hjd : j ∈ (idx.searchOrder q).drop k := by
    rcases List.mem_append.mp (hsplit ▸ hmem) with hjt | hjd
    · exact absurd hjt hnj
    · exact hjd
  have hs := searchOrder_sorted idx q
  rw [← hsplit, List.pairwise_append] at hs
  exact hs.2.2 i hi j hjd

/-- Full correctness of a k-nearest-neighbor result: the returned slots are
exactly `k` distinct valid positions, ordered nearest-first, and no stored
vector outside the result is closer than any returned one. -/
def SearchCorrect (idx : IndexFlatL2) (q : List Int) (k : Nat) : Prop :=
  ∃ js : List Nat,
    idx.search q k = js.map Int.ofNat
    ∧ js.length = k
    ∧ js.Nodup
    ∧ (∀ i ∈ js, i < idx.size)
    ∧ js.Pairwise (fun i j => idx.distTo q i ≤ idx.distTo q j)
    ∧ ∀ i ∈ js, ∀ j, j < idx.size → j ∉ js →
        idx.distTo q i ≤ idx.distTo q j

theorem search_correct_of_le (idx : IndexFlatL2) (q : List Int) (k : Nat)
    (hk : k ≤ idx.size) : SearchCorrect idx q k := by
  refine ⟨(idx.searchOrder q).take k, ?_, ?_, ?_, ?_, ?_, ?_⟩
  · have hz : k - idx.vectors.length = 0 := by
      have := hk
      simp only [IndexFlatL2.size] at this
      omega
    simp [IndexFlatL2.search, hz]
  · rw [List.length_take, searchOrder_length]
    exact min_eq_left hk
  · exact List.Nodup.sublist (List.take_sublist k _) (searchOrder_nodup idx q)
  · intro i hi
    exact (searchOrder_mem idx q i).mp (List.mem_of_mem_take hi)
  · exact List.Pairwise.sublist (List.take_sublist k _) (searchOrder_sorted idx q)
  · exact searchOrder_take_min idx q k

theorem search_empty (idx : IndexFlatL2) (q : List Int) (k : Nat)
    (h : idx.vectors = []) :
    idx.search q k = List.replicate k (-1) := by
  simp [IndexFlatL2.search, IndexFlatL2.searchOrder, h]

/-! ## Distance lemmas -/

theorem sqdist_self (v : List Int) : sqdist v v = 0 := by
  induction v with
  | nil => rfl
  | cons a v ih =>
    simp only [sqdist, List.zip_cons_cons, List.map_cons, List.sum_cons] at *
    simp [ih]

theorem sqdist_nonneg (v w : List Int) : 0 ≤ sqdist v w := by
  induction v generalizing w with
  | nil => simp [sqdist]
  | cons a v ih =>
    cases w with
    | nil => simp [sqdist]
    | cons b w =>
      simp only [sqdist, List.zip_cons_cons, List.map_cons, List.sum_cons]
      have h1 : (0 : ℤ) ≤ (a - b) ^ 2 := sq_nonneg _
      have h2 := ih w
      simp only [sqdist] at h2
      omega

theorem getD_map_of_lt {α β : Type} (f : α → β) (l : List α) (d : β)
    (i : Nat) (h : i < l.length) :
    (l.map f).getD i d = f (l.get ⟨i, h⟩) := by
  rw [List.getD_eq_getElem _ _ (by simpa using h), List.getElem_map]
  rfl

/-! ## `process_pdf` inversion lemmas -/

theorem process_pdf_hit (convert : List Char → Except (List Char) (List PageOcr))
    (embed : List Char → List Int) (cache : Cache) (path : List Char)
    (v : List (List Char) × IndexFlatL2)
    (h : cacheLookup cache (cacheKey path) = some v) :
    process_pdf convert embed cache path = (Except.ok v, cache, false) := by
  simp [process_pdf, h]

theorem process_pdf_miss (convert : List Char → Except (List Char) (List PageOcr))
    (embed : List Char → List Int) (cache : Cache) (path : List Char)
    (h : cacheLookup cache (cacheKey path) = none) :
    process_pdf convert embed cache path =
      match computePipeline convert embed path with
      | Except.error e => (Except.error e, cache, true)
      | Except.ok pair =>
        (Except.ok pair, (cacheKey path, pair) :: cache, true) := by
  simp [process_pdf, h]

theorem process_pdf_ok_inv
    (convert : List Char → Except (List Char) (List PageOcr))
    (embed : List Char → List Int) (cache : Cache) (path : List Char)
    (pair : List (List Char) × IndexFlatL2) (c' : Cache)
    (h : process_pdf convert embed cache path = (Except.ok pair, c', true)) :
    cacheLookup cache (cacheKey path) = none
    ∧ computePipeline convert embed path = Except.ok pair
    ∧ c' = (cacheKey path, pair) :: cache := by
  revert h
  unfold process_pdf
  cases hl : cacheLookup cache (cacheKey path) with
  | some v =>
    intro h
    simp at h
  | none =>
    cases hc : computePipeline convert embed path with
    | error e =>
      intro h
      simp at h
    | ok pair' =>
      intro h
      simp at h
      obtain ⟨h1, h2⟩ := h
      subst h1
      exact ⟨rfl, rfl, h2.symm⟩

theorem computePipeline_ok_inv
    (convert : List Char → Except (List Char) (List PageOcr))
    (embed : List Char → List Int) (path : List Char)
    (chunks : List (List Char)) (index : IndexFlatL2)
    (h : computePipeline convert embed path = Except.ok (chunks, index)) :
    index.vectors = chunks.map embed
    ∧ chunks ≠ []
    ∧ ∃ text, extract_text_from_pdf (convert path) = Except.ok text
        ∧ chunks = split_text text := by
  revert h
  unfold computePipeline
  cases hx : extract_text_from_pdf (convert path) with
  | error e =>
    intro h
    simp at h
  | ok text =>
    simp only []
    by_cases he : ((split_text text).map embed).isEmpty
    · rw [if_pos he]
      intro h
      simp at h
    · rw [if_neg he]
      intro h
      simp at h
      obtain ⟨h1, h2⟩ := h
      subst h1
      subst h2
      refine ⟨rfl, ?_, text, rfl, rfl⟩
      intro hnil
      simp [hnil] at he

/-! ## Context-lookup lemmas (`chunks[i]` with faiss result slots) -/

theorem pyIndex_cast (l : List (List Char)) (i : Nat) (h : i < l.length) :
    pyIndex l (Int.ofNat i) = some (l.getD i []) := by
  have hnotlt : ¬ (Int.ofNat i < 0) := by
    simp
  have hcond : (0 : Int) ≤ Int.ofNat i ∧ (Int.ofNat i).toNat < l.length := by
    constructor
    · simp
    · simpa using h
  simp only [pyIndex, if_neg hnotlt, dif_pos hcond]
  rw [List.get_eq_getElem, List.getD_eq_getElem _ _ (by simpa using h)]
  simp

theorem pyIndex_neg_one (l : List (List Char)) (h : l ≠ []) :
    pyIndex l (-1) = some (l.getLastD []) := by
  have hlen : 1 ≤ l.length := List.length_pos.mpr h
  have hlt : (-1 : Int) < 0 := by norm_num
  have hcond : (0 : Int) ≤ (l.length : Int) + (-1)
      ∧ ((l.length : Int) + (-1)).toNat < l.length := by
    omega
  have hidx : ((l.length : Int) + (-1)).toNat = l.length - 1 := by
    omega
  simp only [pyIndex, if_pos hlt, dif_pos hcond]
  congr 1
  rw [List.get_eq_getElem]
  simp only [hidx]
  rw [List.getLastD_eq_getLast?, List.getLast?_eq_getLast l h,
    List.getLast_eq_getElem]
  rfl

theorem lookupAll_append (chunks : List (List Char)) (xs ys : List Int)
    (ps qs : List (List Char))
    (hx : lookupAll chunks xs = some ps)
    (hy : lookupAll chunks ys = some qs) :
    lookupAll chunks (xs ++ ys) = some (ps ++ qs) := by
  induction xs generalizing ps with
  | nil =>
    simp [lookupAll] at hx
    subst hx
    simpa using hy
  | cons i is ih =>
    simp only [lookupAll] at hx
    cases hpi : pyIndex chunks i with
    | none => rw [hpi] at hx; simp at hx
    | some t =>
      rw [hpi] at hx
      cases hla : lookupAll chunks is with
      | none => rw [hla] at hx; simp at hx
      | some ts =>
        rw [hla] at hx
        simp at hx
        subst hx
        simp [lookupAll, hpi, ih ts hla]

theorem lookupAll_map_cast (chunks : List (List Char)) (js : List Nat)
    (hjs : ∀ j ∈ js, j < chunks.length) :
    lookupAll chunks (js.map Int.ofNat) =
      some (js.map (fun j => chunks.getD j [])) := by
  induction js with
  | nil => rfl
  | cons j js ih =>
    have hj : j < chunks.length := hjs j (List.mem_cons_self j js)
    have hrest : ∀ i ∈ js, i < chunks.length := by
      intro i hi
      exact hjs i (List.mem_cons_of_mem j hi)
    simp only [List.map_cons, lookupAll, pyIndex_cast chunks j hj, ih hrest]

theorem lookupAll_replicate_neg (chunks : List (List Char)) (m : Nat)
    (h : chunks ≠ []) :
    lookupAll chunks (List.replicate m (-1)) =
      some (List.replicate m (chunks.getLastD [])) := by
  induction m with
  | zero => rfl
  | succ n ih =>
    simp only [List.replicate_succ, lookupAll, pyIndex_neg_one chunks h, ih]

theorem lookupAll_search (chunks : List (List Char)) (index : IndexFlatL2)
    (qvec : List Int) (k : Nat)
    (hsize : index.size = chunks.length) (hne : chunks ≠ []) :
    lookupAll chunks (index.search qvec k) =
      some (((index.searchOrder qvec).take k).map (fun j => chunks.getD j [])
        ++ List.replicate (k - chunks.length) (chunks.getLastD [])) := by
  have hlen : index.vectors.length = chunks.length := hsize
  have hvalid : ∀ j ∈ (index.searchOrder qvec).take k, j < chunks.length := by
    intro j hj
    have := (searchOrder_mem index qvec j).mp (List.mem_of_mem_take hj)
    rw [hsize] at this
    exact this
  have h1 := lookupAll_map_cast chunks ((index.searchOrder qvec).take k) hvalid
  have h2 := lookupAll_replicate_neg chunks (k - chunks.length) hne
  have h3 := lookupAll_append chunks _ _ _ _ h1 h2
  rw [IndexFlatL2.search, hlen]
  exact h3

/-! ## Concrete example data (used by the witnesses) -/

/-- A concrete PDF path as `main` uses it. -/
def docPath : List Char := "data/bangla_document.pdf".toList

/-- A concrete one-page rasterizer+OCR outcome. -/
def convertEx : List Char → Except (List Char) (List PageOcr) :=
  fun _ => Except.ok [PageOcr.ok ['h', 'i']]

/-- A concrete embedder (vector = [length of the text]). -/
def embedEx : List Char → List Int :=
  fun c => [(c.length : Int)]

/-- The chunks the pipeline produces for `convertEx`'s document. -/
def chunksEx : List (List Char) := [['h', 'i', '\n', '\n']]

/-- The index the pipeline builds for `chunksEx` under `embedEx`. -/
def indexEx : IndexFlatL2 := ⟨1, [[4]]⟩

/-- The cache after processing `docPath` once. -/
def cacheEx : Cache := [(cacheKey docPath, (chunksEx, indexEx))]

/-- A three-vector index for the search witnesses. -/
def idxThree : IndexFlatL2 := ⟨1, [[0], [3], [1]]⟩

/-! ## Claim theorems -/

/-- C1: `process_pdf` is the cache's get-or-compute.  A persisted entry for
the derived document key is deserialized and returned as-is, independently
of the extractor and embedder (they are not invoked); on a miss the
Extractor→Chunker→Embedder→Vector-Index pipeline runs, its successful
result is persisted under the key and returned; and a second call with the
same key then yields exactly the persisted pair with the extraction flag
`false` (no recomputation). -/
theorem cache_get_or_compute_spec
    (convert : List Char → Except (List Char) (List PageOcr))
    (embed : List Char → List Int) (cache : Cache) (path : List Char) :
    (∀ v, cacheLookup cache (cacheKey path) = some v →
      ∀ (convert' : List Char → Except (List Char) (List PageOcr))
        (embed' : List Char → List Int),
        process_pdf convert' embed' cache path = (Except.ok v, cache, false))
    ∧ (∀ pair, cacheLookup cache (cacheKey path) = none →
        computePipeline convert embed path = Except.ok pair →
        process_pdf convert embed cache path =
          (Except.ok pair, (cacheKey path, pair) :: cache, true))
    ∧ (∀ pair c', process_pdf convert embed cache path =
          (Except.ok pair, c', true) →
        process_pdf convert embed c' path = (Except.ok pair, c', false)) := by
  refine ⟨?_, ?_, ?_⟩
  · intro v hv convert' embed'
    exact process_pdf_hit convert' embed' cache path v hv
  · intro pair hnone hok
    rw [process_pdf_miss convert embed cache path hnone, hok]
  · intro pair c' h
    obtain ⟨hnone, hok, hc⟩ :=
      process_pdf_ok_inv convert embed cache path pair c' h
    subst hc
    exact process_pdf_hit convert embed _ path pair (by simp [cacheLookup])

/-- Witness for C1: a concrete hit returns the persisted pair unchanged,
and a concrete first-time computation followed by a re-run returns the
freshly persisted pair without recomputation. -/
theorem cache_get_or_compute_spec_witness :
    process_pdf convertEx embedEx cacheEx docPath =
      (Except.ok (chunksEx, indexEx), cacheEx, false)
    ∧ process_pdf convertEx embedEx cacheEx docPath =
      (Except.ok (chunksEx, indexEx), cacheEx, false) ∧ True := by
  refine ⟨?_, ?_, trivial⟩
  · exact (cache_get_or_compute_spec convertEx embedEx cacheEx docPath).1
      (chunksEx, indexEx) (by decide) convertEx embedEx
  · exact (cache_get_or_compute_spec convertEx embedEx ([] : Cache) docPath).2.2
      (chunksEx, indexEx) cacheEx rfl

/-- C2 (chunker modelled from the spec): every produced chunk has length at
most 500 characters; a segment within the maximum is never split further
(recursion to a finer separator happens only where a piece still exceeds
the maximum); and in the character-level windowing of an oversized segment
every pair of consecutive chunks overlaps by 100 characters — the tail of
chunk `i` past the stride recurs as the head of chunk `i + 1`. -/
theorem chunker_bound_and_overlap_spec :
    (∀ text, ∀ c ∈ split_text text, c.length ≤ chunk_size)
    ∧ (∀ seps text, text.length ≤ chunk_size → chunkText seps text = [text])
    ∧ (∀ seg, OverlapAt (windowChunks seg)) :=
  ⟨split_text_length_le, chunkText_short, windowChunks_overlap⟩

/-- Witness for C2 at concrete inputs: a short text's length bound and
single-chunk splitting, and the overlap law on a 700-character segment. -/
theorem chunker_bound_and_overlap_spec_witness :
    (['h', 'i'].length ≤ chunk_size)
    ∧ chunkText separators ['h', 'i'] = [['h', 'i']]
    ∧ OverlapAt (windowChunks (List.replicate 700 'a')) :=
  ⟨chunker_bound_and_overlap_spec.1 ['h', 'i'] ['h', 'i'] (by decide),
   chunker_bound_and_overlap_spec.2.1 separators ['h', 'i'] (by decide),
   chunker_bound_and_overlap_spec.2.2 (List.replicate 700 'a')⟩

/-- C3 counterexample: queried on an empty index with `k = 3`, `search`
does not report an error — it returns the defined result `[-1, -1, -1]`,
exactly the padded slots the claim says should not occur. -/
theorem search_empty_index_counterexample :
    (IndexFlatL2.mk 768 []).search [0] 3 = [-1, -1, -1] := by
  have h := search_empty (IndexFlatL2.mk 768 []) [0] 3 rfl
  simpa using h

/-- C3 (amended): for every `k ≤` number of indexed vectors, `search`
returns the `k` indices of the nearest stored vectors under squared
Euclidean distance, nearest-first (distinct, valid, and no excluded stored
vector is closer than a returned one); on an empty index `search` returns
`k` slots of `-1` rather than reporting an error. -/
theorem search_knn_spec (idx : IndexFlatL2) (q : List Int) (k : Nat) :
    (k ≤ idx.size → SearchCorrect idx q k)
    ∧ (idx.vectors = [] → idx.search q k = List.replicate k (-1)) :=
  ⟨search_correct_of_le idx q k, search_empty idx q k⟩

/-- Witness for C3 on a three-vector index with `k = 2` and on a concrete
empty index. -/
theorem search_knn_spec_witness :
    (2 ≤ idxThree.size ∧ SearchCorrect idxThree [1] 2)
    ∧ (IndexFlatL2.mk 768 []).search [0] 3 = List.replicate 3 (-1) :=
  ⟨⟨by decide, (search_knn_spec idxThree [1] 2).1 (by decide)⟩,
   (search_knn_spec (IndexFlatL2.mk 768 []) [0] 3).2 rfl⟩

/-- C4: a freshly processed document stores exactly one vector per chunk,
positionally aligned (`index.vectors = chunks.map embed`, so
`len(chunks) = index.size()`), and searching with chunk `i`'s own embedding
at `k = 1` returns a position whose stored vector is at squared distance 0
from that embedding — tied-top with position `i`, whose own distance is
also 0. -/
theorem index_chunk_correspondence
    (convert : List Char → Except (List Char) (List PageOcr))
    (embed : List Char → List Int) (cache : Cache) (path : List Char)
    (chunks : List (List Char)) (index : IndexFlatL2) (c' : Cache)
    (h : process_pdf convert embed cache path =
      (Except.ok (chunks, index), c', true)) :
    chunks.length = index.size
    ∧ index.vectors = chunks.map embed
    ∧ ∀ i (hi : i < chunks.length),
        ∃ j : Nat,
          index.search (embed (chunks.get ⟨i, hi⟩)) 1 = [Int.ofNat j]
          ∧ j < index.size
          ∧ index.distTo (embed (chunks.get ⟨i, hi⟩)) j = 0
          ∧ index.distTo (embed (chunks.get ⟨i, hi⟩)) i = 0 := by
  obtain ⟨hnone, hok, hc⟩ :=
    process_pdf_ok_inv convert embed cache path (chunks, index) c' h
  obtain ⟨hvec, hne, _⟩ :=
    computePipeline_ok_inv convert embed path chunks index hok
  have hsize : index.size = chunks.length := by
    rw [IndexFlatL2.size, hvec, List.length_map]
  refine ⟨hsize.symm, hvec, ?_⟩
  intro i hi
  have h1 : 1 ≤ index.size := by omega
  obtain ⟨js, hsearch, hlen1, _, hjsmem, _, hmin⟩ :=
    search_correct_of_le index (embed (chunks.get ⟨i, hi⟩)) 1 h1
  obtain ⟨j, hj⟩ := List.length_eq_one.mp hlen1
  subst hj
  have hdi : index.distTo (embed (chunks.get ⟨i, hi⟩)) i = 0 := by
    rw [IndexFlatL2.distTo, hvec, getD_map_of_lt embed chunks [] i hi]
    exact sqdist_self _
  refine ⟨j, by simpa using hsearch, hjsmem j (by simp), ?_, hdi⟩
  by_cases hij : j = i
  · rw [hij]
    exact hdi
  · have hile : i < index.size := by omega
    have hnotmem : i ∉ [j] := by
      simp only [List.mem_singleton]
      intro he
      exact hij he.symm
    have hle := hmin j (by simp) i hile hnotmem
    rw [hdi] at hle
    have hge : 0 ≤ index.distTo (embed (chunks.get ⟨i, hi⟩)) j :=
      sqdist_nonneg _ _
    omega

/-- Witness for C4: the concrete one-chunk document, with the
self-retrieval statement instantiated at chunk 0. -/
theorem index_chunk_correspondence_witness :
    chunksEx.length = indexEx.size
    ∧ indexEx.vectors = chunksEx.map embedEx
    ∧ ∃ j : Nat,
        indexEx.search (embedEx (chunksEx.get ⟨0, by decide⟩)) 1 = [Int.ofNat j]
        ∧ j < indexEx.size
        ∧ indexEx.distTo (embedEx (chunksEx.get ⟨0, by decide⟩)) j = 0
        ∧ indexEx.distTo (embedEx (chunksEx.get ⟨0, by decide⟩)) 0 = 0 := by
  have h := index_chunk_correspondence convertEx embedEx ([] : Cache) docPath
    chunksEx indexEx cacheEx rfl
  exact ⟨h.1, h.2.1, h.2.2 0 (by decide)⟩

/-- A concrete rasterizer+OCR outcome whose second page fails. -/
def convertFailEx : List Char → Except (List Char) (List PageOcr) :=
  fun _ => Except.ok [PageOcr.ok ['x'], PageOcr.err ['z']]

/-- A concrete rasterizer+OCR outcome with no pages (empty text). -/
def convertEmptyEx : List Char → Except (List Char) (List PageOcr) :=
  fun _ => Except.ok []

/-- A concrete always-failing completion service. -/
def serviceFailEx : List Char → Except (List Char) (List Char) :=
  fun _ => Except.error ['b']

/-- A concrete Tesseract message reporting missing Bengali language data. -/
def benMsg : List Char :=
  "Error opening data file ben.traineddata".toList

/-- Helper for C5: the OCR page loop fails as soon as any page fails. -/
theorem ocrPages_err_of_mem (pages : List PageOcr)
    (h : ∃ m, PageOcr.err m ∈ pages) :
    ∃ e, ocrPages pages = Except.error e := by
  induction pages with
  | nil =>
    obtain ⟨m, hm⟩ := h
    exact absurd hm (List.not_mem_nil _)
  | cons p rest ih =>
    obtain ⟨m, hm⟩ := h
    cases p with
    | ok t =>
      have hmem : PageOcr.err m ∈ rest := by
        rcases List.mem_cons.mp hm with heq | hmem
        · exact absurd heq (by simp)
        · exact hmem
      obtain ⟨e, he⟩ := ih ⟨m, hmem⟩
      exact ⟨e, by simp [ocrPages, he, Except.map]⟩
    | err m' =>
      by_cases hb : hasSub benMarker m' = true
      · exact ⟨PipelineError.langDataMissing, by simp [ocrPages, hb]⟩
      · exact ⟨PipelineError.tesseractError m', by simp [ocrPages, hb]⟩

/-- C5: extraction is all-or-nothing — any failing page makes the whole
extraction fail with an error, no partial text is returned, and a request
whose extraction fails leaves the cache exactly as it was (no entry is
persisted for the document key). -/
theorem extraction_all_or_nothing :
    (∀ pages, (∃ m, PageOcr.err m ∈ pages) →
      ∃ e, ocrPages pages = Except.error e)
    ∧ (∀ (convert : List Char → Except (List Char) (List PageOcr))
        (embed : List Char → List Int) (cache : Cache) (path : List Char)
        (e : PipelineError),
        cacheLookup cache (cacheKey path) = none →
        extract_text_from_pdf (convert path) = Except.error e →
        process_pdf convert embed cache path =
          (Except.error e, cache, true)) := by
  constructor
  · exact ocrPages_err_of_mem
  · intro convert embed cache path e hnone hx
    rw [process_pdf_miss convert embed cache path hnone]
    simp [computePipeline, hx]

/-- Witness for C5: a concrete two-page document whose second page fails
OCR, and the concrete pipeline run that leaves the empty cache empty. -/
theorem extraction_all_or_nothing_witness :
    (∃ e, ocrPages [PageOcr.ok ['x'], PageOcr.err ['z']] = Except.error e)
    ∧ process_pdf convertFailEx embedEx ([] : Cache) docPath =
      (Except.error (PipelineError.tesseractError ['z']), [], true) :=
  ⟨extraction_all_or_nothing.1 [PageOcr.ok ['x'], PageOcr.err ['z']]
      ⟨['z'], by simp⟩,
   extraction_all_or_nothing.2 convertFailEx embedEx [] docPath
      (PipelineError.tesseractError ['z']) rfl rfl⟩

/-- C6 counterexample: in `app_deploy.py`'s extraction loop, an OCR failure
whose message reports the missing Bengali language data (`ben` occurs in
it) is surfaced as the generic `tesseractError`, not as the distinct
language-data-missing condition — which is a different error value. -/
theorem deploy_ben_error_reported_generic :
    hasSub benMarker benMsg = true
    ∧ ocrPagesDeploy [PageOcr.err benMsg] =
        Except.error (PipelineError.tesseractError benMsg)
    ∧ PipelineError.tesseractError benMsg ≠ PipelineError.langDataMissing :=
  ⟨by decide, rfl, by decide⟩

/-- Helper for C6: in `app.py`'s loop, the first failing page with a
`ben`-mentioning message yields the dedicated error. -/
theorem ocrPages_ben (pre : List PageOcr)
    (hpre : ∀ p ∈ pre, ∃ t, p = PageOcr.ok t)
    (msg : List Char) (rest : List PageOcr)
    (hben : hasSub benMarker msg = true) :
    ocrPages (pre ++ PageOcr.err msg :: rest) =
      Except.error PipelineError.langDataMissing := by
  induction pre with
  | nil => simp [ocrPages, hben]
  | cons p pre ih =>
    obtain ⟨t, hp⟩ := hpre p (List.mem_cons_self p pre)
    subst hp
    simp [ocrPages, ih (fun q hq => hpre q (List.mem_cons_of_mem _ hq)),
      Except.map]

/-- C6 (amended): `app.py`'s extraction loop surfaces an OCR failure whose
message mentions `ben` as the distinct language-data-missing error
(different from every generic `tesseractError`); `app_deploy.py`'s loop
reports the same condition generically (see the counterexample). -/
theorem ben_error_distinct_in_app (pre : List PageOcr)
    (hpre : ∀ p ∈ pre, ∃ t, p = PageOcr.ok t)
    (msg : List Char) (rest : List PageOcr)
    (hben : hasSub benMarker msg = true) :
    ocrPages (pre ++ PageOcr.err msg :: rest) =
      Except.error PipelineError.langDataMissing
    ∧ ∀ m, PipelineError.langDataMissing ≠ PipelineError.tesseractError m :=
  ⟨ocrPages_ben pre hpre msg rest hben,
   fun _ h => PipelineError.noConfusion h⟩

/-- Witness for C6's amended theorem at a concrete failing page. -/
theorem ben_error_distinct_in_app_witness :
    ocrPages ([] ++ PageOcr.err benMsg :: []) =
      Except.error PipelineError.langDataMissing
    ∧ ∀ m, PipelineError.langDataMissing ≠ PipelineError.tesseractError m :=
  ben_error_distinct_in_app [] (by simp) benMsg [] (by decide)

/-- C7: when the completion service fails for every prompt, the question
step returns gracefully with no answer (`Except.ok none`: no crash), and
the document's chunks and index come back untouched — the document stays
READY for the next question. -/
theorem generation_failure_leaves_doc_ready
    (chunks : List (List Char)) (index : IndexFlatL2)
    (embedQ : List Char → List Int) (question : List Char)
    (e : List Char) (service : List Char → Except (List Char) (List Char))
    (hsvc : ∀ p, service p = Except.error e)
    (hsize : index.size = chunks.length) (hne : chunks ≠ []) :
    askQuestion chunks index embedQ service question =
      (Except.ok none, (chunks, index)) := by
  have hctx := lookupAll_search chunks index (embedQ question) 3 hsize hne
  simp [askQuestion, contextOf, hctx, hsvc, query_openai]

/-- Witness for C7: the concrete one-chunk document with an always-failing
service. -/
theorem generation_failure_leaves_doc_ready_witness :
    askQuestion chunksEx indexEx embedEx serviceFailEx ['?'] =
      (Except.ok none, (chunksEx, indexEx)) :=
  generation_failure_leaves_doc_ready chunksEx indexEx embedEx ['?'] ['b']
    serviceFailEx (fun _ => rfl) (by decide) (by decide)

/-- C8: the question path assembles one prompt embedding the retrieved
context and the question, and `query_openai` submits it with the fixed
model `gpt-4o`, the fixed Bangla system instruction, sampling temperature
0.2 and maximum output length 500 tokens, returning the trimmed response
text on success. -/
theorem prompt_and_request_parameters (context question r : List Char) :
    (openaiRequest (buildPrompt context question)).model = "gpt-4o".toList
    ∧ (openaiRequest (buildPrompt context question)).temperature = 2 / 10
    ∧ (openaiRequest (buildPrompt context question)).maxTokens = 500
    ∧ (openaiRequest (buildPrompt context question)).systemContent =
        systemInstruction
    ∧ (∃ a b c, (openaiRequest (buildPrompt context question)).userContent =
        a ++ context ++ b ++ question ++ c)
    ∧ query_openai (Except.ok r) = some (pyStrip r) := by
  refine ⟨rfl, ?_, rfl, rfl, ⟨promptPre, promptMid, promptPost, rfl⟩, rfl⟩
  norm_num [openaiRequest, openaiTemperature]

/-- C9: for a loaded document with fewer than 3 chunks, the question path
still queries the index with `k = 3`: the result has exactly 3 slots, the
missing slots come back as `-1`, and the chunk lookup resolves each `-1`
through Python negative indexing to the last chunk, so the context is
assembled without error (possibly duplicating the last chunk) instead of
an out-of-range failure or a k-capped result. -/
theorem search_padding_negative_indexing
    (chunks : List (List Char)) (index : IndexFlatL2) (qvec : List Int)
    (hsize : index.size = chunks.length)
    (h1 : 1 ≤ chunks.length) (h3 : chunks.length < 3) :
    (index.search qvec 3).length = 3
    ∧ (index.search qvec 3).drop chunks.length =
        List.replicate (3 - chunks.length) (-1)
    ∧ ∃ parts, lookupAll chunks (index.search qvec 3) = some parts
        ∧ parts.length = 3
        ∧ parts.drop chunks.length =
            List.replicate (3 - chunks.length) (chunks.getLastD [])
        ∧ contextOf chunks (index.search qvec 3) =
            some (joinContext parts) := by
  have hne : chunks ≠ [] := List.length_pos.mp (by omega)
  have hvlen : index.vectors.length = chunks.length := hsize
  have holen : (index.searchOrder qvec).length = chunks.length := by
    rw [searchOrder_length, hsize]
  have htake : (index.searchOrder qvec).take 3 = index.searchOrder qvec :=
    List.take_of_length_le (by omega)
  have hmaplen :
      (((index.searchOrder qvec).take 3).map Int.ofNat).length =
        chunks.length := by
    rw [List.length_map, htake, holen]
  constructor
  · rw [IndexFlatL2.search, List.length_append, hmaplen,
      List.length_replicate, hvlen]
    omega
  constructor
  · rw [IndexFlatL2.search, List.drop_left' hmaplen, hvlen]
  · have hparts := lookupAll_search chunks index qvec 3 hsize hne
    have hplen :
        ((((index.searchOrder qvec).take 3).map
            (fun j => chunks.getD j [])).length = chunks.length) := by
      rw [List.length_map, htake, holen]
    refine ⟨_, hparts, ?_, ?_, ?_⟩
    · rw [List.length_append, hplen, List.length_replicate]
      omega
    · rw [List.drop_left' hplen]
    · rw [contextOf, hparts]
      rfl

/-- Witness for C9: the concrete one-chunk document queried with `k = 3`. -/
theorem search_padding_negative_indexing_witness :
    (indexEx.search [0] 3).length = 3
    ∧ (indexEx.search [0] 3).drop chunksEx.length =
        List.replicate (3 - chunksEx.length) (-1)
    ∧ ∃ parts, lookupAll chunksEx (indexEx.search [0] 3) = some parts
        ∧ parts.length = 3
        ∧ parts.drop chunksEx.length =
            List.replicate (3 - chunksEx.length) (chunksEx.getLastD [])
        ∧ contextOf chunksEx (indexEx.search [0] 3) =
            some (joinContext parts) :=
  search_padding_negative_indexing chunksEx indexEx [0]
    (by decide) (by decide) (by decide)

/-- C10: a document whose extracted text yields no chunks makes
`process_pdf` fail with the empty-embedding-batch error (`shape[1]` of an
empty batch) before any index is built or cache entry written — the cache
is left unchanged; consequently every cache entry a `process_pdf` call can
create holds at least one chunk and at least one vector. -/
theorem empty_chunks_abort_before_persist :
    (∀ (convert : List Char → Except (List Char) (List PageOcr))
        (embed : List Char → List Int) (cache : Cache) (path : List Char)
        (text : List Char),
        cacheLookup cache (cacheKey path) = none →
        extract_text_from_pdf (convert path) = Except.ok text →
        split_text text = [] →
        process_pdf convert embed cache path =
          (Except.error PipelineError.emptyEmbeddings, cache, true))
    ∧ (∀ (convert : List Char → Except (List Char) (List PageOcr))
        (embed : List Char → List Int) (cache : Cache) (path : List Char)
        (res : Except PipelineError (List (List Char) × IndexFlatL2))
        (c' : Cache) (b : Bool) (k : List Char)
        (v : List (List Char) × IndexFlatL2),
        process_pdf convert embed cache path = (res, c', b) →
        cacheLookup c' k = some v →
        cacheLookup cache k = some v
        ∨ (v.1 ≠ [] ∧ v.2.vectors ≠ [])) := by
  constructor
  · intro convert embed cache path text hnone hx hsplit
    rw [process_pdf_miss convert embed cache path hnone]
    simp [computePipeline, hx, hsplit]
  · intro convert embed cache path res c' b k v h hv
    cases hl : cacheLookup cache (cacheKey path) with
    | some entry =>
      rw [process_pdf_hit convert embed cache path entry hl] at h
      obtain ⟨h1, h2, h3⟩ : Except.ok entry = res ∧ cache = c' ∧ false = b := by
        simpa [Prod.ext_iff] using h
      left
      rw [h2]
      exact hv
    | none =>
      rw [process_pdf_miss convert embed cache path hl] at h
      cases hc : computePipeline convert embed path with
      | error e =>
        rw [hc] at h
        obtain ⟨h1, h2, h3⟩ :
            Except.error e = res ∧ cache = c' ∧ true = b := by
          simpa [Prod.ext_iff] using h
        left
        rw [h2]
        exact hv
      | ok pair =>
        obtain ⟨pc, pi⟩ := pair
        rw [hc] at h
        obtain ⟨h1, h2, h3⟩ :
            Except.ok (pc, pi) = res
              ∧ (cacheKey path, (pc, pi)) :: cache = c' ∧ true = b := by
          simpa [Prod.ext_iff] using h
        obtain ⟨hvec, hne, -⟩ :=
          computePipeline_ok_inv convert embed path pc pi hc
        rw [← h2] at hv
        by_cases hk : cacheKey path = k
        · simp only [cacheLookup, if_pos hk] at hv
          right
          obtain rfl : v = (pc, pi) := by
            cases hv
            rfl
          refine ⟨hne, ?_⟩
          intro hemp
          rw [hvec] at hemp
          exact hne (List.map_eq_nil.mp hemp)
        · simp only [cacheLookup, if_neg hk] at hv
          left
          exact hv

/-- Witness for C10: a zero-page document aborts with the
empty-embedding-batch error and writes nothing, and a concrete fresh cache
entry is non-empty. -/
theorem empty_chunks_abort_before_persist_witness :
    process_pdf convertEmptyEx embedEx ([] : Cache) docPath =
      (Except.error PipelineError.emptyEmbeddings, [], true)
    ∧ (cacheLookup ([] : Cache) (cacheKey docPath) =
          some (chunksEx, indexEx)
        ∨ (chunksEx ≠ [] ∧ indexEx.vectors ≠ [])) :=
  ⟨empty_chunks_abort_before_persist.1 convertEmptyEx embedEx [] docPath []
      rfl rfl rfl,
   empty_chunks_abort_before_persist.2 convertEx embedEx [] docPath
      (Except.ok (chunksEx, indexEx)) cacheEx true (cacheKey docPath)
      (chunksEx, indexEx) rfl (by decide)⟩
